import Mathlib

/-!
# A verification model of the `ral` score-driven synthesis language

This file shallowly embeds the parts of the `ral` implementation that the
checked claims are about:

* `src/runtime/value.rs` — the tagged `Value` union and its `Add`, `Sub`,
  `Mul`, `Div` implementations;
* `src/audio/audio_buffer.rs` — the 2-D `AudioBuffer` sample store;
* `src/runtime/instrument.rs` — `VariableType` compatibility predicates and
  the `run_ops` interpreter of `InstrumentEventInstance`;
* `src/runtime/vm.rs` — `VM::get_next_buffer`;
* `src/compiler/compiler.rs` — the static-type computation of `term`/`factor`,
  the bytecode-emission discipline of the statement/expression compilers, and
  the error-handling skeleton of `compile` / `compile_and_run`;
* `src/compiler/scanner.rs` — the lexer;
* `src/audio/components/generators/noise.rs` — the `Noise` generator.

Machine reals (`f32`) are modelled as rationals `ℚ`: the claims under check
concern control flow, tagging, cloning, interval bounds and token classes,
none of which hinge on rounding.  The Rust `f32 → i64` `as`-cast truncates
toward zero and is modelled by `ratTrunc` (saturation at the `i64` range is
not modelled; no claim exercises it).  A Rust `panic!` / `unreachable!` /
failed `assert!` / out-of-bounds index is modelled by `Option.none`.
-/

namespace Ral

/-- Truncation toward zero of a rational, the semantics of Rust's
`f32 as i64` cast (`0.5 → 0`, `-1.5 → -1`). -/
def ratTrunc (q : ℚ) : ℤ := q.num.tdiv q.den

/-- `src/runtime/instrument.rs`, `enum VariableType`. -/
inductive VariableType where
  | Audio
  | Float
  | Int
  | String
  deriving DecidableEq, Repr

namespace VariableType

/-- `src/runtime/instrument.rs`, `VariableType::can_factor_with`:
legality of `*` and `/` between two static types. -/
def can_factor_with : VariableType → VariableType → Bool
  | .Audio, other => other != .String
  | .Float, other => other == .Float || other == .Int
  | .Int, other => other == .Float || other == .Int
  | .String, _ => false

/-- `src/runtime/instrument.rs`, `VariableType::can_sum_with`:
legality of `+` and `-` between two static types. -/
def can_sum_with : VariableType → VariableType → Bool
  | .Audio, other => other != .String
  | .Float, other => other == .Float || other == .Int
  | .Int, other => other == .Float || other == .Int
  | .String, other => other == .String

end VariableType

/-- The static type `Compiler::term` (`src/compiler/compiler.rs:481-513`)
assigns to `lhs + rhs` / `lhs - rhs`.  The source checks
`expression_type.can_sum_with(rhs_type)`; on success it emits the op and
keeps `expression_type` — the type of the *left* operand — unchanged, and
that is what the production returns. -/
def termStaticType (lhs rhs : VariableType) : Option VariableType :=
  if lhs.can_sum_with rhs then some lhs else none

/-- The static type `Compiler::factor` (`src/compiler/compiler.rs:515-548`)
assigns to `lhs * rhs` / `lhs / rhs`; like `term` it returns the left
operand's type on success. -/
def factorStaticType (lhs rhs : VariableType) : Option VariableType :=
  if lhs.can_factor_with rhs then some lhs else none

/-! ## AudioBuffer (`src/audio/audio_buffer.rs`)

`data` is the `Vec<NumberArray<f32>>`: one row of samples per channel. -/

structure AudioBuffer where
  channels : ℕ
  buffer_size : ℕ
  data : List (List ℚ)
  deriving DecidableEq, Repr

namespace AudioBuffer

/-- `AudioBuffer::new`: zero-filled `channels × buffer_size` store. -/
def new (channels buffer_size : ℕ) : AudioBuffer :=
  ⟨channels, buffer_size, List.replicate channels (List.replicate buffer_size 0)⟩

/-- `AudioBuffer::get_sample` (reads `data[channel][sample]`; the source
indexes in bounds wherever it is called, so the out-of-range default `0`
is never observed). -/
def get_sample (b : AudioBuffer) (channel sample : ℕ) : ℚ :=
  (b.data.getD channel []).getD sample 0

/-- `AudioBuffer::set_sample` (writes `data[channel][sample]`; in-bounds at
every call site in the source). -/
def set_sample (b : AudioBuffer) (channel sample : ℕ) (value : ℚ) : AudioBuffer :=
  { b with data := b.data.set channel ((b.data.getD channel []).set sample value) }

/-- Pointwise sum of one channel row with a source row
(the inner `for sample in 0..self.buffer_size` loop of `add_from`,
with both rows of length `buffer_size`). -/
def rowAdd : List ℚ → List ℚ → List ℚ
  | xs, [] => xs
  | [], _ => []
  | x :: xs, y :: ys => (x + y) :: rowAdd xs ys

/-- Pointwise difference, the inner loop of `subtract_from`. -/
def rowSub : List ℚ → List ℚ → List ℚ
  | xs, [] => xs
  | [], _ => []
  | x :: xs, y :: ys => (x - y) :: rowSub xs ys

/-- Pointwise product, the inner loop of `multiply_by`. -/
def rowMul : List ℚ → List ℚ → List ℚ
  | xs, [] => xs
  | [], _ => []
  | x :: xs, y :: ys => (x * y) :: rowMul xs ys

/-- The channel loop of `add_from`/`subtract_from`/`multiply_by`: channels
`0 .. min self.channels source.channels` are combined with `f`, channels of
`self` beyond `source.channels()` are left untouched. -/
def combineRows (f : List ℚ → List ℚ → List ℚ) :
    List (List ℚ) → List (List ℚ) → List (List ℚ)
  | rows, [] => rows
  | [], _ => []
  | r :: rs, s :: ss => f r s :: combineRows f rs ss

/-- `AudioBuffer::add_from`: `assert!(self.buffer_size == source.buffer_size)`
(modelled as `none` on failure), then element-wise add truncating to the
smaller channel count. -/
def add_from (b source : AudioBuffer) : Option AudioBuffer :=
  if b.buffer_size ≠ source.buffer_size then none
  else some { b with data := combineRows rowAdd b.data source.data }

/-- `AudioBuffer::subtract_from`. -/
def subtract_from (b source : AudioBuffer) : Option AudioBuffer :=
  if b.buffer_size ≠ source.buffer_size then none
  else some { b with data := combineRows rowSub b.data source.data }

/-- `AudioBuffer::multiply_by`. -/
def multiply_by (b other : AudioBuffer) : Option AudioBuffer :=
  if b.buffer_size ≠ other.buffer_size then none
  else some { b with data := combineRows rowMul b.data other.data }

/-- `AudioBuffer::apply_gain`: every sample multiplied by `gain`. -/
def apply_gain (b : AudioBuffer) (gain : ℚ) : AudioBuffer :=
  { b with data := b.data.map (fun row => row.map (· * gain)) }

/-- `AudioBuffer::apply_add`: every sample incremented by `add`. -/
def apply_add (b : AudioBuffer) (add : ℚ) : AudioBuffer :=
  { b with data := b.data.map (fun row => row.map (· + add)) }

end AudioBuffer

/-! ## Value (`src/runtime/value.rs`)

The Rust `Value` is a tag plus a union whose `Audio` payload is an
`Rc<AudioBuffer>`.  The embedding makes the reference-counted sharing
explicit: a *store* `List AudioBuffer` holds every live buffer, and an
`Audio`-tagged value carries the index of the buffer it aliases.
`Value::audio(buffer)` (which wraps a fresh `Rc::new`) appends the buffer
to the store and references the new last slot. -/

abbrev Store := List AudioBuffer

inductive Value where
  | int (i : ℤ)
  | float (q : ℚ)
  | string (s : String)
  | audio (ref : ℕ)
  deriving DecidableEq, Repr

namespace Value

/-- `Value::default()` is `Int 0`. -/
def default : Value := .int 0

/-- Tag of a value, `Value::value_type`. -/
def value_type : Value → VariableType
  | .int _ => .Int
  | .float _ => .Float
  | .string _ => .String
  | .audio _ => .Audio

/-- `Value::get_float` (an unchecked union read in the source; every call
site reads a `Float`-tagged value, so the junk default is never observed). -/
def get_float : Value → ℚ
  | .float q => q
  | _ => 0

/-- `Value::get_int`. -/
def get_int : Value → ℤ
  | .int i => i
  | _ => 0

/-- `Value::get_audio`, resolving the shared reference in the store. -/
def get_audio (st : Store) : Value → Option AudioBuffer
  | .audio ref => st.get? ref
  | _ => none

end Value

/-- `impl Add for Value` (`src/runtime/value.rs:163-196`).  The `Audio` arm
clones the aliased buffer (`self.get_audio().clone()`), mutates the clone,
and wraps it in a fresh `Rc` (`Value::audio(buffer)`) — modelled by
appending the mutated clone to the store.  `unreachable!()` arms are `none`. -/
def valueAdd (st : Store) : Value → Value → Option (Store × Value)
  | .audio ref, rhs => do
    let buffer ← st.get? ref
    let buffer ←
      match rhs with
      | .audio r => do buffer.add_from (← st.get? r)
      | .float f => some (buffer.apply_add f)
      | .int i => some (buffer.apply_add (i : ℚ))
      | .string _ => none
    some (st ++ [buffer], .audio st.length)
  | .int a, rhs =>
    match rhs with
    | .int b => some (st, .int (a + b))
    | .float f => some (st, .int (a + ratTrunc f))
    | _ => none
  | .float a, rhs =>
    match rhs with
    | .int b => some (st, .float (a + (b : ℚ)))
    | .float f => some (st, .float (a + f))
    | _ => none
  | .string a, rhs =>
    match rhs with
    | .string b => some (st, .string (a ++ b))
    | _ => none

/-- `impl Sub for Value` (`src/runtime/value.rs:198-231`). -/
def valueSub (st : Store) : Value → Value → Option (Store × Value)
  | .audio ref, rhs => do
    let buffer ← st.get? ref
    let buffer ←
      match rhs with
      | .audio r => do buffer.subtract_from (← st.get? r)
      | .float f => some (buffer.apply_add (-f))
      | .int i => some (buffer.apply_add (-(i : ℚ)))
      | .string _ => none
    some (st ++ [buffer], .audio st.length)
  | .int a, rhs =>
    match rhs with
    | .float f => some (st, .int (a - ratTrunc f))
    | .int b => some (st, .int (a - b))
    | _ => none
  | .float a, rhs =>
    match rhs with
    | .float f => some (st, .float (a - f))
    | .int b => some (st, .float (a - (b : ℚ)))
    | _ => none
  | .string _, _ => none

/-- `impl Mul for Value` (`src/runtime/value.rs:101-135`). -/
def valueMul (st : Store) : Value → Value → Option (Store × Value)
  | .audio ref, rhs => do
    let buffer ← st.get? ref
    let buffer ←
      match rhs with
      | .audio r => do buffer.multiply_by (← st.get? r)
      | .float f => some (buffer.apply_gain f)
      | .int i => some (buffer.apply_gain (i : ℚ))
      | .string _ => none
    some (st ++ [buffer], .audio st.length)
  | .int a, rhs =>
    match rhs with
    | .int b => some (st, .int (a * b))
    | .float f => some (st, .int (a * ratTrunc f))
    | _ => none
  | .float a, rhs =>
    match rhs with
    | .int b => some (st, .float (a * (b : ℚ)))
    | .float f => some (st, .float (a * f))
    | _ => none
  | .string _, _ => none

/-- `impl Div for Value` (`src/runtime/value.rs:137-161`).  The whole
`ValueType::Audio` arm of the match is `unreachable!()`; integer division by
zero panics in Rust; both are `none`.  Rust `i64` division truncates toward
zero (`Int.tdiv`); `ℚ` division stands in for `f32` division. -/
def valueDiv (st : Store) : Value → Value → Option (Store × Value)
  | .audio _, _ => none
  | .int a, rhs => do
    let d ←
      match rhs with
      | .int b => some b
      | .float f => some (ratTrunc f)
      | _ => none
    if d = 0 then none else some (st, .int (a.tdiv d))
  | .float a, rhs =>
    match rhs with
    | .int b => some (st, .float (a / (b : ℚ)))
    | .float f => some (st, .float (a / f))
    | _ => none
  | .string _, _ => none

/-! ## Components (`src/audio/components/`)

`StreamInfo` is the triple passed to every `process` call.  The claims only
exercise the `Noise` generator (`noise.rs`), whose state is the thread RNG;
the RNG is modelled as an infinite stream of draws `rng : ℕ → ℚ` together
with the index of the next unconsumed draw, each draw standing for one
`gen_range(-1.0..1.0)` result (a value in `[-1, 1)`). -/

structure StreamInfo where
  sample_rate : ℕ
  buffer_size : ℕ
  channels : ℕ
  deriving DecidableEq, Repr

inductive Component where
  | noise (rng : ℕ → ℚ) (idx : ℕ)

/-- `Component::arg_count` — `Noise::INPUT_TYPES.len() = 1`. -/
def Component.arg_count : Component → ℕ
  | .noise _ _ => 1

/-- `Noise::process` (`noise.rs:31-44`): a fresh zeroed
`channels × buffer_size` buffer, then
`for sample in 0..buffer_size { for channel in 0..channels {
set_sample(channel, sample, rng.gen_range(-1.0..1.0) * args[0].get_float()) } }`
— one fresh draw per `(sample, channel)` pair, drawn in that loop order, so
the `(channel, sample)` entry holds draw number `sample * channels + channel`.
The resulting rows are exactly the map below. -/
def noiseProcess (rng : ℕ → ℚ) (idx : ℕ) (si : StreamInfo) (args : List Value) :
    AudioBuffer :=
  { channels := si.channels
    buffer_size := si.buffer_size
    data := (List.range si.channels).map fun channel =>
      (List.range si.buffer_size).map fun sample =>
        rng (idx + (sample * si.channels + channel)) * (args.getD 0 Value.default).get_float }

/-- `Component::process` dispatch, returning the produced value and the
component's updated state.  `Value::audio(buffer)` wraps the buffer in a
fresh `Rc`, modelled by appending it to the store. -/
def Component.process (c : Component) (si : StreamInfo) (args : List Value)
    (st : Store) : Store × Value × Component :=
  match c with
  | .noise rng idx =>
    let buffer := noiseProcess rng idx si args
    (st ++ [buffer], .audio st.length, .noise rng (idx + si.buffer_size * si.channels))

/-! ## Bytecode and the `run_ops` interpreter
(`src/runtime/ops.rs`, `src/runtime/instrument.rs:324-415`) -/

/-- `enum Op` (`src/runtime/ops.rs`). -/
inductive Op where
  | Add
  | AssignLocal (i : ℕ)
  | AssignMember (i : ℕ)
  | CallComponent (i : ℕ)
  | DeclareLocal
  | Divide
  | LoadArg (i : ℕ)
  | LoadConstant (v : Value)
  | LoadLocal (i : ℕ)
  | LoadMember (i : ℕ)
  | Multiply
  | Output
  | Print
  | PrintEmpty
  | PrintLn
  | PrintLnEmpty
  | Subtract

/-- The mutable context of one `run_ops` invocation: the shared buffer heap
(`store`), the event instance's member variables (`vars`, the source field `variables`), the function's
`components`, the block's `buffer_to_fill`, and the invocation's `locals`
and operand `stack` (`let mut stack = Vec::new(); let mut locals =
Vec::new();` in the source — both are local to the call). -/
structure RunState where
  store : Store
  vars : List Value
  components : List Component
  buffer_to_fill : AudioBuffer
  locals : List Value
  stack : List Value

/-- One step of the `for op in func.ops` match in
`InstrumentEventInstance::run_ops`.  `stack.pop().unwrap()` on an empty
stack and every out-of-bounds index panic in Rust and are `none` here;
`print!`/`println!` side effects are not modelled (their pops are). -/
def execOp (args : List Value) (si : StreamInfo) (s : RunState) :
    Op → Option RunState
  | .AssignLocal i => do
    let v :: rest := s.stack | none
    if i < s.locals.length then
      some { s with locals := s.locals.set i v, stack := rest }
    else none
  | .AssignMember i => do
    let v :: rest := s.stack | none
    if i < s.vars.length then
      some { s with vars := s.vars.set i v, stack := rest }
    else none
  | .CallComponent i => do
    let c ← s.components.get? i
    let n := c.arg_count
    if n ≤ s.stack.length then
      -- the pops fill `args[arg_count - i - 1]`, so the call receives the
      -- popped values in source order
      let callArgs := (s.stack.take n).reverse
      let (store', v, c') := c.process si callArgs s.store
      some { s with store := store', components := s.components.set i c',
                    stack := v :: s.stack.drop n }
    else none
  | .DeclareLocal => do
    let v :: rest := s.stack | none
    some { s with locals := s.locals ++ [v], stack := rest }
  | .LoadArg i => do
    let v ← args.get? i
    some { s with stack := v :: s.stack }
  | .LoadConstant v =>
    some { s with stack := v :: s.stack }
  | .LoadLocal i => do
    let v ← s.locals.get? i
    some { s with stack := v :: s.stack }
  | .LoadMember i => do
    let v ← s.vars.get? i
    some { s with stack := v :: s.stack }
  | .Output => do
    let v :: rest := s.stack | none
    let src ← v.get_audio s.store
    let buffer ← s.buffer_to_fill.add_from src
    some { s with buffer_to_fill := buffer, stack := rest }
  | .Print => do
    let _ :: rest := s.stack | none
    some { s with stack := rest }
  | .PrintEmpty => some s
  | .PrintLn => do
    let _ :: rest := s.stack | none
    some { s with stack := rest }
  | .PrintLnEmpty => some s
  | .Add => do
    let rhs :: lhs :: rest := s.stack | none
    let (store', v) ← valueAdd s.store lhs rhs
    some { s with store := store', stack := v :: rest }
  | .Divide => do
    let rhs :: lhs :: rest := s.stack | none
    let (store', v) ← valueDiv s.store lhs rhs
    some { s with store := store', stack := v :: rest }
  | .Multiply => do
    let rhs :: lhs :: rest := s.stack | none
    let (store', v) ← valueMul s.store lhs rhs
    some { s with store := store', stack := v :: rest }
  | .Subtract => do
    let rhs :: lhs :: rest := s.stack | none
    let (store', v) ← valueSub s.store lhs rhs
    some { s with store := store', stack := v :: rest }

/-- The `for op in func.ops` loop of `run_ops`, from a given context. -/
def runOpsFrom (args : List Value) (si : StreamInfo) :
    List Op → RunState → Option RunState
  | [], s => some s
  | op :: ops, s => do runOpsFrom args si ops (← execOp args si s op)

/-- `InstrumentEventInstance::run_ops`: the operand stack and the locals
array are freshly created and empty on entry
(`let mut stack = Vec::<Value>::new(); let mut locals = Vec::<Value>::new();`). -/
def runOps (ops : List Op) (args : List Value) (si : StreamInfo)
    (s : RunState) : Option RunState :=
  runOpsFrom args si ops { s with locals := [], stack := [] }

/-! ## Instruments, event instances and the scheduler
(`src/runtime/instrument.rs`, `src/runtime/vm.rs`) -/

/-- A finalised `Instrument`: member count, and the frozen bytecode and
component prototypes of its two functions (names and declared types play no
role at run time). -/
structure Instrument where
  numVars : ℕ
  initOps : List Op
  initComps : List Component
  perfOps : List Op
  perfComps : List Component

/-- `InstrumentEventInstance`: member values, the two functions' bytecode
and per-instance component state, the event's frozen argument vectors,
`duration_samples` and `sample_counter`.  (`instrument_name` and the
debug-only `max_amps` are not modelled.) -/
structure EventInstance where
  vars : List Value
  initOps : List Op
  initComps : List Component
  perfOps : List Op
  perfComps : List Component
  initArgs : List Value
  perfArgs : List Value
  durationSamples : ℕ
  sampleCounter : ℕ

/-- `Instrument::create_event_instance`: fresh member array of type-default
values (`vec![Value::default(); self.variables.len()]`), cloned component
prototypes, `sample_counter: 0`. -/
def Instrument.create_event_instance (inst : Instrument)
    (duration_samples : ℕ) (init_args perf_args : List Value) : EventInstance :=
  { vars := List.replicate inst.numVars Value.default
    initOps := inst.initOps
    initComps := inst.initComps
    perfOps := inst.perfOps
    perfComps := inst.perfComps
    initArgs := init_args
    perfArgs := perf_args
    durationSamples := duration_samples
    sampleCounter := 0 }

/-- `InstrumentEventInstance::run_init`: run the init bytecode; member
values and init-function component state persist on the instance. -/
def runInit (inst : EventInstance) (si : StreamInfo) (store : Store)
    (buffer_to_fill : AudioBuffer) :
    Option (EventInstance × Store × AudioBuffer) := do
  let s ← runOps inst.initOps inst.initArgs si
    { store := store, vars := inst.vars, components := inst.initComps,
      buffer_to_fill := buffer_to_fill, locals := [], stack := [] }
  some ({ inst with vars := s.vars, initComps := s.components },
        s.store, s.buffer_to_fill)

/-- `InstrumentEventInstance::run_perf`: run the perf bytecode, advance
`sample_counter` by `buffer_size`, and report whether the event is over
(`sample_counter >= duration_samples`). -/
def runPerf (inst : EventInstance) (si : StreamInfo) (store : Store)
    (buffer_to_fill : AudioBuffer) :
    Option (EventInstance × Store × AudioBuffer × Bool) := do
  let s ← runOps inst.perfOps inst.perfArgs si
    { store := store, vars := inst.vars, components := inst.perfComps,
      buffer_to_fill := buffer_to_fill, locals := [], stack := [] }
  let inst' := { inst with
    vars := s.vars
    perfComps := s.components
    sampleCounter := inst.sampleCounter + si.buffer_size }
  some (inst', s.store, s.buffer_to_fill,
        decide (inst'.sampleCounter ≥ inst.durationSamples))

/-- A finalised `ScoreEvent` (`src/runtime/vm.rs`): instrument index,
duration in seconds, frozen argument vectors.  (`start_time` survives only
through the key of the start-sample map below.) -/
structure ScoreEvent where
  instrument_index : ℕ
  duration : ℚ
  init_args : List Value
  perf_args : List Value

/-- The post-`finalise` `VM` state that `get_next_buffer` reads:
instruments, the `start_sample → events` map (an association list),
the active instances, the global `sample_counter`, the configured sample
rate, and the buffer heap. -/
structure VMState where
  instruments : List Instrument
  sorted_score_events : List (ℕ × List ScoreEvent)
  active_score_events : List EventInstance
  sample_counter : ℕ
  sample_rate : ℕ
  store : Store

/-- The `for event in events.iter()` body of `get_next_buffer`: create the
instance with `duration_samples = (duration * sample_rate) as usize`
(truncation toward zero, clamped at 0), run its `init`, push it onto the
active list.  The last component counts the `run_init` calls made. -/
def fireEvents (instruments : List Instrument) (sr : ℕ) (si : StreamInfo) :
    List ScoreEvent → Store → AudioBuffer → List EventInstance → ℕ →
    Option (Store × AudioBuffer × List EventInstance × ℕ)
  | [], store, buf, active, inits => some (store, buf, active, inits)
  | ev :: rest, store, buf, active, inits => do
    let instrument ← instruments.get? ev.instrument_index
    let instEv := instrument.create_event_instance
      ((ratTrunc (ev.duration * (sr : ℚ))).toNat) ev.init_args ev.perf_args
    let (instEv', store', buf') ← runInit instEv si store buf
    fireEvents instruments sr si rest store' buf' (active ++ [instEv']) (inits + 1)

/-- The `for _ in 0..buffer_size` loop of `get_next_buffer`: at each of the
block's sample positions, fire the score events scheduled at the current
`sample_counter`, then increment it. -/
def fireLoop (si : StreamInfo) :
    ℕ → VMState → AudioBuffer → ℕ → Option (VMState × AudioBuffer × ℕ)
  | 0, vm, buf, inits => some (vm, buf, inits)
  | n + 1, vm, buf, inits => do
    let (store', buf', active', inits') ←
      match vm.sorted_score_events.lookup vm.sample_counter with
      | some events =>
        fireEvents vm.instruments vm.sample_rate si events vm.store buf
          vm.active_score_events inits
      | none => some (vm.store, buf, vm.active_score_events, inits)
    fireLoop si n
      { vm with store := store', active_score_events := active',
                sample_counter := vm.sample_counter + 1 } buf' inits'

/-- The `while i < self.active_score_events.len()` loop of
`get_next_buffer`: each active instance gets exactly one `run_perf`, in
list order; instances whose `run_perf` returns `true` are removed, order
among survivors is preserved.  The last component counts the `run_perf`
calls made. -/
def perfPass (si : StreamInfo) :
    List EventInstance → Store → AudioBuffer →
    Option (List EventInstance × Store × AudioBuffer × ℕ)
  | [], store, buf => some ([], store, buf, 0)
  | inst :: rest, store, buf => do
    let (inst', store', buf', done) ← runPerf inst si store buf
    let (survivors, store'', buf'', perfs) ← perfPass si rest store' buf'
    some (if done then survivors else inst' :: survivors, store'', buf'', perfs + 1)

/-- The result of one `VM::get_next_buffer` call, instrumented with the
number of `run_init` and `run_perf` calls it performed. -/
structure BlockResult where
  vm : VMState
  buffer : AudioBuffer
  initCalls : ℕ
  perfCalls : ℕ

/-- `VM::get_next_buffer` (`src/runtime/vm.rs:270-314`): allocate a zeroed
block buffer, fire scheduled events while advancing `sample_counter` across
the block, then run one `perf` per active instance and retire the finished
ones. -/
def getNextBuffer (vm : VMState) (channels buffer_size : ℕ) :
    Option BlockResult := do
  let buffer := AudioBuffer.new channels buffer_size
  let si : StreamInfo :=
    { sample_rate := vm.sample_rate, buffer_size := buffer_size,
      channels := channels }
  let (vm₁, buf₁, inits) ← fireLoop si buffer_size vm buffer 0
  let (active', store', buf₂, perfs) ← perfPass si vm₁.active_score_events vm₁.store buf₁
  some { vm := { vm₁ with active_score_events := active', store := store' },
         buffer := buf₂, initCalls := inits, perfCalls := perfs }

/-! ## Lexer (`src/compiler/scanner.rs`)

A character-level model of `Scanner`.  The token-type enumeration below is
the `TokenType` enum of `scanner.rs` verbatim — note that it has no variant
for `output`, `+`, `-`, `*`, `/` or end-of-file (the `compiler.rs` in the
same tree refers to `TokenType::Output`, `Plus`, `Minus`, `Star`, `Slash`
and `EndOfFile`, none of which exist here).  The loops of the scanner all
advance `current`, so a fuel of `code.length + 1` makes every recursion
total without changing behaviour. -/

inductive TokenType where
  | AudioIdent
  | BraceOpen
  | BraceClose
  | Colon
  | Comma
  | Equal
  | ErrorToken
  | Float
  | FloatIdent
  | Identifier
  | InitIdent
  | InstrumentsIdent
  | IntIdent
  | Integer
  | Local
  | ParenOpen
  | ParenClose
  | PerfIdent
  | Print
  | PrintLn
  | ScoreIdent
  | Semicolon
  | String
  | StringIdent
  deriving DecidableEq, Repr

/-- The `KEYWORDS` phf map of `scanner.rs:6-18`; exactly these eleven
entries — `"output"` is *not* among them. -/
def KEYWORDS : String → Option TokenType
  | "instruments" => some .InstrumentsIdent
  | "score" => some .ScoreIdent
  | "Int" => some .IntIdent
  | "Float" => some .FloatIdent
  | "Audio" => some .AudioIdent
  | "String" => some .StringIdent
  | "init" => some .InitIdent
  | "perf" => some .PerfIdent
  | "print" => some .Print
  | "println" => some .PrintLn
  | "local" => some .Local
  | _ => none

/-- The `SYMBOLS` phf map of `scanner.rs:20-29`; exactly these eight
entries — `"+"`, `"-"`, `"*"`, `"/"` are *not* among them. -/
def SYMBOLS : String → Option TokenType
  | "\x7b" => some .BraceOpen
  | "\x7d" => some .BraceClose
  | ":" => some .Colon
  | "," => some .Comma
  | "=" => some .Equal
  | "(" => some .ParenOpen
  | ")" => some .ParenClose
  | ";" => some .Semicolon
  | _ => none

/-- `Token` (the source field `end` is called `stop` here — `end` is a Lean
keyword). -/
structure Token where
  text : String
  start : ℕ
  stop : ℕ
  line : ℕ
  column : ℕ
  token_type : TokenType
  deriving DecidableEq, Repr

structure Scanner where
  code : List Char
  start : ℕ
  current : ℕ
  line : ℕ
  column : ℕ

namespace Scanner

/-- `Scanner::new`. -/
def new (code : List Char) : Scanner :=
  { code := code, start := 0, current := 0, line := 1, column := 1 }

def peek (s : Scanner) : Option Char := s.code.get? s.current

def peekNext (s : Scanner) : Option Char :=
  if s.current ≥ s.code.length - 1 then none else s.code.get? (s.current + 1)

def peekPrevious (s : Scanner) : Option Char :=
  if s.current = 0 then none else s.code.get? (s.current - 1)

/-- `Scanner::advance`: returns the character at `current` and moves past
it, bumping `column`. -/
def advance (s : Scanner) : Option (Char × Scanner) :=
  if s.current ≥ s.code.length then none
  else some (s.code.getD s.current ' ',
             { s with current := s.current + 1, column := s.column + 1 })

/-- `Scanner::skip_whitespace`: consume spaces, tabs, carriage returns;
a newline additionally bumps `line` and resets `column` to 0 (the
subsequent `advance` makes it 1). -/
def skipWhitespace : ℕ → Scanner → Scanner
  | 0, s => s
  | fuel + 1, s =>
    match s.peek with
    | none => s
    | some c =>
      if c = '\t' ∨ c = '\r' ∨ c = ' ' then
        match s.advance with
        | some (_, s') => skipWhitespace fuel s'
        | none => s
      else if c = '\n' then
        match ({ s with line := s.line + 1, column := 0 } : Scanner).advance with
        | some (_, s') => skipWhitespace fuel s'
        | none => s
      else s

/-- The `self.code[self.start..self.current]` slice. -/
def lexeme (s : Scanner) : String :=
  String.mk ((s.code.drop s.start).take (s.current - s.start))

/-- `Scanner::make_token`. -/
def makeToken (s : Scanner) (token_type : TokenType) : Token :=
  { text := s.lexeme
    start := s.start
    stop := s.current
    token_type := token_type
    line := s.line
    column := s.column - (s.current - s.start) }

/-- The `while` loop of `Scanner::identifier`. -/
def identLoop : ℕ → Scanner → Scanner
  | 0, s => s
  | fuel + 1, s =>
    match s.peek with
    | none => s
    | some c =>
      if c.isAlphanum ∨ c = '_' then
        match s.advance with
        | some (_, s') => identLoop fuel s'
        | none => s
      else s

/-- `Scanner::identifier`: extend the lexeme, then classify it through
`KEYWORDS`, falling back to `Identifier`. -/
def identifier (fuel : ℕ) (s : Scanner) : Token × Scanner :=
  let s := identLoop fuel s
  match KEYWORDS s.lexeme with
  | some token_type => (s.makeToken token_type, s)
  | none => (s.makeToken .Identifier, s)

/-- The digit loops of `Scanner::number`. -/
def digitLoop : ℕ → Scanner → Scanner
  | 0, s => s
  | fuel + 1, s =>
    match s.peek with
    | none => s
    | some c =>
      if c.isDigit then
        match s.advance with
        | some (_, s') => digitLoop fuel s'
        | none => s
      else s

/-- `Scanner::number`: integer digits, then a fractional part only when a
`.` is followed by a digit. -/
def number (fuel : ℕ) (s : Scanner) : Token × Scanner :=
  let s := digitLoop fuel s
  if (s.peek.getD '\x00') = '.' ∧ (s.peekNext.getD '\x00').isDigit then
    match s.advance with
    | some (_, s') =>
      let s' := digitLoop fuel s'
      (s'.makeToken .Float, s')
    | none => (s.makeToken .Float, s)
  else (s.makeToken .Integer, s)

/-- `Scanner::error_token` (the diagnostic `println!` is not modelled). -/
def errorToken (s : Scanner) (message : String) : Token :=
  { text := message
    start := s.start
    stop := s.current
    token_type := .ErrorToken
    line := s.line
    column := s.column }

/-- The loop of `Scanner::string`: scan to the first unescaped `"`,
tracking newlines; running out of input yields the unterminated-string
error token. -/
def stringLoop : ℕ → Scanner → Option Scanner
  | 0, s => some s
  | fuel + 1, s =>
    match s.peek with
    | none => none
    | some c =>
      if c = '"' ∧ (s.peekPrevious.getD '\x00') ≠ '\\' then some s
      else
        let s := if c = '\n' then { s with line := s.line + 1, column := 0 } else s
        match s.advance with
        | some (_, s') => stringLoop fuel s'
        | none => some s

/-- `Scanner::string`. -/
def stringToken (fuel : ℕ) (s : Scanner) : Token × Scanner :=
  match stringLoop fuel s with
  | none => (s.errorToken "Unterminated string", s)
  | some s =>
    match s.advance with
    | some (_, s') => (s'.makeToken .String, s')
    | none => (s.makeToken .String, s)

/-- `Scanner::scan_token` (`scanner.rs:183-214`): `None` at end of input;
otherwise skip whitespace, then classify by the first character —
identifier/keyword, number, a `SYMBOLS` punctuation mark, a string — and
fall through to a blank `ErrorToken` for any unknown byte. -/
def scan_token (s : Scanner) : Option (Token × Scanner) :=
  if s.peek.isNone then none
  else
    let fuel := s.code.length + 1
    let s := skipWhitespace fuel s
    let s := { s with start := s.current }
    match s.advance with
    | none => none
    | some (c, s) =>
      if c.isAlpha ∨ c = '_' then some (s.identifier fuel)
      else if c.isDigit then some (s.number fuel)
      else
        match SYMBOLS s.lexeme with
        | some token_type => some (s.makeToken token_type, s)
        | none =>
          if c = '"' then some (s.stringToken fuel)
          else some
            ({ text := "", start := 0, stop := 0,
               token_type := .ErrorToken, line := 0, column := 0 }, s)

end Scanner

/-! ## The compiler's error-handling skeleton
(`compile_and_run`, `Compiler::compile`, `src/compiler/compiler.rs:54-107`)

The claims about error reporting are decided by the driver loop of
`Compiler::compile` and by `compile_and_run`, so those are modelled at the
granularity of top-level productions.  A source file is a sequence of
top-level items: an `instruments { … }` block, a `score { … }` block, or an
invalid top-level token.  Each block item is abstracted by its *outcome*:
the number of diagnostics its production reports when the parser reaches
it (0 for a clean block).  Every diagnostic in the source flows through
`Compiler::error`, which prints exactly one diagnostic and sets
`had_error = true` (`compiler.rs:997-1034`); there is no reset of
`had_error` anywhere.  The loop structure is translated verbatim: after
each block, `if self.had_error { break; }`; an invalid top-level token
reports one error and breaks immediately. -/

inductive BlockItem where
  | instrumentsBlock (diagnostics : ℕ)
  | scoreBlock (diagnostics : ℕ)
  | badToken

/-- A block item that parses without reporting any diagnostic. -/
def BlockItem.clean : BlockItem → Prop
  | .instrumentsBlock k => k = 0
  | .scoreBlock k => k = 0
  | .badToken => False

/-- The error state of `Compiler`: the `had_error` flag and the number of
diagnostics printed so far. -/
structure CompState where
  had_error : Bool
  diagnostics : ℕ
  deriving DecidableEq, Repr

/-- The effect of a production that calls `Compiler::error` `k` times:
`k` diagnostics are printed, and `had_error` is set if `k > 0`. -/
def CompState.report (st : CompState) (k : ℕ) : CompState :=
  { had_error := st.had_error || decide (0 < k),
    diagnostics := st.diagnostics + k }

/-- The `loop` of `Compiler::compile` (`compiler.rs:89-106`): match an
`instruments` or `score` block and parse it, break at end of file, report
one error and break on any other token; after a parsed block,
`if self.had_error { break; }`. -/
def compileLoop : List BlockItem → CompState → CompState
  | [], st => st
  | item :: rest, st =>
    match item with
    | .badToken => st.report 1
    | .instrumentsBlock k =>
      let st' := st.report k
      if st'.had_error then st' else compileLoop rest st'
    | .scoreBlock k =>
      let st' := st.report k
      if st'.had_error then st' else compileLoop rest st'

/-- `Compiler::compile`, starting from `had_error: false`. -/
def compile (blocks : List BlockItem) : CompState :=
  compileLoop blocks { had_error := false, diagnostics := 0 }

/-- `compile_and_run` (`compiler.rs:54-83`): compile, then run the program
only `if !compiler.had_error()`.  Returns the final error state and
whether execution started. -/
def compileAndRun (blocks : List BlockItem) : CompState × Bool :=
  let st := compile blocks
  (st, !st.had_error)

/-! ## Stack discipline of compiled bytecode
(`Compiler::statement` / `local_declaration` / expression chain,
`src/compiler/compiler.rs:322-600`)

To settle the operand-stack claim, the bytecode emission of the statement
and expression productions is modelled over the surface syntax that an
error-free compilation accepts, and execution is projected to the operand
stack's depth (`stackArity` lists each op's pops and pushes exactly as
`run_ops` performs them).  Emission mirrors the source's order: an
expression is compiled left to right, post-order (operands before their
operator, arguments before their `CallComponent`); a statement compiles
its expression and then appends the single consuming op.  Component call
sites are recorded the way `add_init_component`/`add_perf_component`
record them: a growing side array, indexed by `CallComponent`, holding
each site's argument count (the compiler parses exactly
`info.input_types.len()` arguments and the constructed component's
`arg_count()` equals that number). -/

/-- The four binary-operator tokens of `term` and `factor`. -/
inductive BinTok where
  | plus
  | minus
  | star
  | slash

/-- The op `term`/`factor` emit for each operator token. -/
def BinTok.toOp : BinTok → Op
  | .plus => .Add
  | .minus => .Subtract
  | .star => .Multiply
  | .slash => .Divide

mutual
/-- An expression as accepted by `expression`/`term`/`factor`/`call`/
`primary`: literals, resolved identifiers (argument, local or member —
the resolution order is immaterial to emission shape), component calls,
and binary chains (parenthesised expressions add nothing to emission). -/
inductive Expr where
  | intLit (n : ℤ)
  | floatLit (q : ℚ)
  | stringLit (s : String)
  | argRef (i : ℕ)
  | localRef (i : ℕ)
  | memberRef (i : ℕ)
  | componentCall (args : ExprList)
  | binary (op : BinTok) (lhs rhs : Expr)

inductive ExprList where
  | nil
  | cons (e : Expr) (es : ExprList)
end

def ExprList.length : ExprList → ℕ
  | .nil => 0
  | .cons _ es => es.length + 1

mutual
/-- Bytecode emission of one expression, mirroring `primary`/`identifier`/
`term`/`factor`: appends to the function's op vector and component array. -/
def compileExpr : Expr → List Op × List ℕ → List Op × List ℕ
  | .intLit n, (ops, comps) => (ops ++ [.LoadConstant (.int n)], comps)
  | .floatLit q, (ops, comps) => (ops ++ [.LoadConstant (.float q)], comps)
  | .stringLit s, (ops, comps) => (ops ++ [.LoadConstant (.string s)], comps)
  | .argRef i, (ops, comps) => (ops ++ [.LoadArg i], comps)
  | .localRef i, (ops, comps) => (ops ++ [.LoadLocal i], comps)
  | .memberRef i, (ops, comps) => (ops ++ [.LoadMember i], comps)
  | .componentCall args, acc =>
    let (ops, comps) := compileArgs args acc
    (ops ++ [.CallComponent comps.length], comps ++ [args.length])
  | .binary op lhs rhs, acc =>
    let acc := compileExpr lhs acc
    let (ops, comps) := compileExpr rhs acc
    (ops ++ [op.toOp], comps)

/-- The argument loop of a component call in `identifier`: each argument
is a full `expression`, compiled in source order. -/
def compileArgs : ExprList → List Op × List ℕ → List Op × List ℕ
  | .nil, acc => acc
  | .cons e es, acc => compileArgs es (compileExpr e acc)
end

/-- A statement as accepted by `statement`/`local_declaration` in an
error-free compilation. -/
inductive Stmt where
  | localDecl (e : Expr)
  | assignMember (i : ℕ) (e : Expr)
  | assignLocal (i : ℕ) (e : Expr)
  | printExpr (e : Expr)
  | printEmpty
  | printlnExpr (e : Expr)
  | printlnEmpty
  | outputStmt (e : Expr)

/-- Bytecode emission of one statement: its expression (when it has one)
followed by the single consuming op, as `statement` and
`local_declaration` emit them. -/
def compileStmt : Stmt → List Op × List ℕ → List Op × List ℕ
  | .localDecl e, acc =>
    let (ops, comps) := compileExpr e acc
    (ops ++ [.DeclareLocal], comps)
  | .assignMember i e, acc =>
    let (ops, comps) := compileExpr e acc
    (ops ++ [.AssignMember i], comps)
  | .assignLocal i e, acc =>
    let (ops, comps) := compileExpr e acc
    (ops ++ [.AssignLocal i], comps)
  | .printExpr e, acc =>
    let (ops, comps) := compileExpr e acc
    (ops ++ [.Print], comps)
  | .printEmpty, (ops, comps) => (ops ++ [.PrintEmpty], comps)
  | .printlnExpr e, acc =>
    let (ops, comps) := compileExpr e acc
    (ops ++ [.PrintLn], comps)
  | .printlnEmpty, (ops, comps) => (ops ++ [.PrintLnEmpty], comps)
  | .outputStmt e, acc =>
    let (ops, comps) := compileExpr e acc
    (ops ++ [.Output], comps)

/-- The body of an `init` or `perf` function: its statements compiled in
order into one op vector and one component array. -/
def compileFunc (stmts : List Stmt) : List Op × List ℕ :=
  stmts.foldl (fun acc s => compileStmt s acc) ([], [])

/-- How many values each op pops and pushes, read off the arms of
`run_ops` (`instrument.rs:336-413`); `CallComponent(i)` pops
`func.components[i].arg_count()` values and pushes the one result. -/
def stackArity (comps : List ℕ) : Op → Option (ℕ × ℕ)
  | .Add => some (2, 1)
  | .AssignLocal _ => some (1, 0)
  | .AssignMember _ => some (1, 0)
  | .CallComponent i => do some ((← comps.get? i), 1)
  | .DeclareLocal => some (1, 0)
  | .Divide => some (2, 1)
  | .LoadArg _ => some (0, 1)
  | .LoadConstant _ => some (0, 1)
  | .LoadLocal _ => some (0, 1)
  | .LoadMember _ => some (0, 1)
  | .Multiply => some (2, 1)
  | .Output => some (1, 0)
  | .Print => some (1, 0)
  | .PrintEmpty => some (0, 0)
  | .PrintLn => some (1, 0)
  | .PrintLnEmpty => some (0, 0)
  | .Subtract => some (2, 1)

/-- Execution of an op sequence projected to the operand stack's depth:
popping below empty (`stack.pop().unwrap()` on an empty stack) is `none`. -/
def execDepth (comps : List ℕ) : List Op → ℕ → Option ℕ
  | [], d => some d
  | op :: ops, d => do
    let (pops, pushes) ← stackArity comps op
    if pops ≤ d then execDepth comps ops (d - pops + pushes) else none

/-! ## Helper lemmas -/

/-- A successful `Value` addition only ever *extends* the buffer store:
the `Audio` arm clones and appends (`Value::audio(buffer)` makes a fresh
`Rc`), the scalar and string arms leave it untouched. -/
theorem valueAdd_extends (st : Store) (lhs rhs : Value) (st' : Store) (w : Value)
    (h : valueAdd st lhs rhs = some (st', w)) : ∃ tail, st' = st ++ tail := by
  cases lhs <;> cases rhs <;>
    simp only [valueAdd, Option.bind_eq_some, Option.some.injEq, Prod.mk.injEq,
      reduceCtorEq] at h
  case int.int => exact ⟨[], by simp [← h.1]⟩
  case int.float => exact ⟨[], by simp [← h.1]⟩
  case float.int => exact ⟨[], by simp [← h.1]⟩
  case float.float => exact ⟨[], by simp [← h.1]⟩
  case string.string => exact ⟨[], by simp [← h.1]⟩
  case audio.int ref i =>
    cases hget : List.get? st ref <;> rw [hget] at h <;> simp at h
    exact ⟨_, h.1.symm⟩
  case audio.float ref q =>
    cases hget : List.get? st ref <;> rw [hget] at h <;> simp at h
    exact ⟨_, h.1.symm⟩
  case audio.string ref s =>
    cases hget : List.get? st ref <;> rw [hget] at h <;> simp at h
  case audio.audio r1 r2 =>
    cases hget : List.get? st r1 <;> rw [hget] at h <;> simp [Option.bind_eq_some] at h
    obtain ⟨b, -, c, -, h1, -⟩ := h
    exact ⟨_, h1.symm⟩

/-- As `valueAdd_extends`, for subtraction. -/
theorem valueSub_extends (st : Store) (lhs rhs : Value) (st' : Store) (w : Value)
    (h : valueSub st lhs rhs = some (st', w)) : ∃ tail, st' = st ++ tail := by
  cases lhs <;> cases rhs <;>
    simp only [valueSub, Option.bind_eq_some, Option.some.injEq, Prod.mk.injEq,
      reduceCtorEq] at h
  case int.int => exact ⟨[], by simp [← h.1]⟩
  case int.float => exact ⟨[], by simp [← h.1]⟩
  case float.int => exact ⟨[], by simp [← h.1]⟩
  case float.float => exact ⟨[], by simp [← h.1]⟩
  case audio.int ref i =>
    cases hget : List.get? st ref <;> rw [hget] at h <;> simp at h
    exact ⟨_, h.1.symm⟩
  case audio.float ref q =>
    cases hget : List.get? st ref <;> rw [hget] at h <;> simp at h
    exact ⟨_, h.1.symm⟩
  case audio.string ref s =>
    cases hget : List.get? st ref <;> rw [hget] at h <;> simp at h
  case audio.audio r1 r2 =>
    cases hget : List.get? st r1 <;> rw [hget] at h <;> simp [Option.bind_eq_some] at h
    obtain ⟨b, -, c, -, h1, -⟩ := h
    exact ⟨_, h1.symm⟩

/-- As `valueAdd_extends`, for multiplication. -/
theorem valueMul_extends (st : Store) (lhs rhs : Value) (st' : Store) (w : Value)
    (h : valueMul st lhs rhs = some (st', w)) : ∃ tail, st' = st ++ tail := by
  cases lhs <;> cases rhs <;>
    simp only [valueMul, Option.bind_eq_some, Option.some.injEq, Prod.mk.injEq,
      reduceCtorEq] at h
  case int.int => exact ⟨[], by simp [← h.1]⟩
  case int.float => exact ⟨[], by simp [← h.1]⟩
  case float.int => exact ⟨[], by simp [← h.1]⟩
  case float.float => exact ⟨[], by simp [← h.1]⟩
  case audio.int ref i =>
    cases hget : List.get? st ref <;> rw [hget] at h <;> simp at h
    exact ⟨_, h.1.symm⟩
  case audio.float ref q =>
    cases hget : List.get? st ref <;> rw [hget] at h <;> simp at h
    exact ⟨_, h.1.symm⟩
  case audio.string ref s =>
    cases hget : List.get? st ref <;> rw [hget] at h <;> simp at h
  case audio.audio r1 r2 =>
    cases hget : List.get? st r1 <;> rw [hget] at h <;> simp [Option.bind_eq_some] at h
    obtain ⟨b, -, c, -, h1, -⟩ := h
    exact ⟨_, h1.symm⟩

/-- Executing a concatenation of op sequences at the depth level is the
composition of executing each part. -/
theorem execDepth_append (comps : List ℕ) (a b : List Op) :
    ∀ d, execDepth comps (a ++ b) d = (execDepth comps a d).bind (execDepth comps b) := by
  induction a with
  | nil => intro d; simp [execDepth]
  | cons op ops ih =>
    intro d
    simp only [List.cons_append, execDepth]
    cases stackArity comps op with
    | none => simp
    | some pr =>
      obtain ⟨pops, pushes⟩ := pr
      by_cases hle : pops ≤ d
      · simp [hle, ih]
      · simp [hle]

mutual
/-- Emission of one expression appends a block of ops that, run at any
stack depth (under any component array extending the one recorded), pushes
exactly one value. -/
theorem compileExpr_spec (e : Expr) : ∀ ops comps, ∃ newOps newComps,
    compileExpr e (ops, comps) = (ops ++ newOps, comps ++ newComps) ∧
    ∀ ext d, execDepth ((comps ++ newComps) ++ ext) newOps d = some (d + 1) := by
  cases e with
  | intLit n =>
    exact fun ops comps => ⟨[.LoadConstant (.int n)], [], by simp [compileExpr],
      fun ext d => by simp [execDepth, stackArity]⟩
  | floatLit q =>
    exact fun ops comps => ⟨[.LoadConstant (.float q)], [], by simp [compileExpr],
      fun ext d => by simp [execDepth, stackArity]⟩
  | stringLit s =>
    exact fun ops comps => ⟨[.LoadConstant (.string s)], [], by simp [compileExpr],
      fun ext d => by simp [execDepth, stackArity]⟩
  | argRef i =>
    exact fun ops comps => ⟨[.LoadArg i], [], by simp [compileExpr],
      fun ext d => by simp [execDepth, stackArity]⟩
  | localRef i =>
    exact fun ops comps => ⟨[.LoadLocal i], [], by simp [compileExpr],
      fun ext d => by simp [execDepth, stackArity]⟩
  | memberRef i =>
    exact fun ops comps => ⟨[.LoadMember i], [], by simp [compileExpr],
      fun ext d => by simp [execDepth, stackArity]⟩
  | componentCall args =>
    intro ops comps
    obtain ⟨Δ, Δc, heq, hexec⟩ := compileArgs_spec args ops comps
    refine ⟨Δ ++ [.CallComponent (comps ++ Δc).length], Δc ++ [args.length], ?_, ?_⟩
    · simp [compileExpr, heq]
    · intro ext d
      have hassoc : (comps ++ (Δc ++ [args.length])) ++ ext
          = (comps ++ Δc) ++ ([args.length] ++ ext) := by simp
      rw [hassoc, execDepth_append, hexec ([args.length] ++ ext) d, Option.some_bind]
      have hget : ((comps ++ Δc) ++ ([args.length] ++ ext)).get? ((comps ++ Δc).length)
          = some args.length := by
        rw [List.get?_append_right (le_refl _)]; simp
      simp only [execDepth, stackArity, hget]
      simp [Nat.le_add_left]
  | binary op lhs rhs =>
    intro ops comps
    obtain ⟨Δl, Δcl, heql, hexecl⟩ := compileExpr_spec lhs ops comps
    obtain ⟨Δr, Δcr, heqr, hexecr⟩ := compileExpr_spec rhs (ops ++ Δl) (comps ++ Δcl)
    refine ⟨Δl ++ (Δr ++ [op.toOp]), Δcl ++ Δcr, ?_, ?_⟩
    · simp [compileExpr, heql, heqr]
    · intro ext d
      have hassoc : (comps ++ (Δcl ++ Δcr)) ++ ext
          = (comps ++ Δcl) ++ (Δcr ++ ext) := by simp
      rw [hassoc, execDepth_append, hexecl (Δcr ++ ext) d, Option.some_bind]
      have hassoc2 : (comps ++ Δcl) ++ (Δcr ++ ext)
          = ((comps ++ Δcl) ++ Δcr) ++ ext := by simp
      rw [hassoc2, execDepth_append, hexecr ext (d + 1), Option.some_bind]
      cases op <;> simp [execDepth, stackArity, BinTok.toOp]
termination_by sizeOf e

/-- Emission of a component call's argument list pushes one value per
argument. -/
theorem compileArgs_spec (es : ExprList) : ∀ ops comps, ∃ newOps newComps,
    compileArgs es (ops, comps) = (ops ++ newOps, comps ++ newComps) ∧
    ∀ ext d, execDepth ((comps ++ newComps) ++ ext) newOps d = some (d + es.length) := by
  cases es with
  | nil =>
    exact fun ops comps => ⟨[], [], by simp [compileArgs], fun ext d => by
      simp [execDepth, ExprList.length]⟩
  | cons e es =>
    intro ops comps
    obtain ⟨Δe, Δce, heqe, hexece⟩ := compileExpr_spec e ops comps
    obtain ⟨Δs, Δcs, heqs, hexecs⟩ := compileArgs_spec es (ops ++ Δe) (comps ++ Δce)
    refine ⟨Δe ++ Δs, Δce ++ Δcs, ?_, ?_⟩
    · simp [compileArgs, heqe, heqs]
    · intro ext d
      have hassoc : (comps ++ (Δce ++ Δcs)) ++ ext
          = (comps ++ Δce) ++ (Δcs ++ ext) := by simp
      rw [hassoc, execDepth_append, hexece (Δcs ++ ext) d, Option.some_bind]
      have hassoc2 : (comps ++ Δce) ++ (Δcs ++ ext)
          = ((comps ++ Δce) ++ Δcs) ++ ext := by simp
      rw [hassoc2, hexecs ext (d + 1)]
      simp [ExprList.length]
      omega
termination_by sizeOf es
end

/-- Emission of one statement appends a block of ops that pops exactly as
many values as it pushes: it preserves every stack depth. -/
theorem compileStmt_spec (s : Stmt) : ∀ ops comps, ∃ newOps newComps,
    compileStmt s (ops, comps) = (ops ++ newOps, comps ++ newComps) ∧
    ∀ ext d, execDepth ((comps ++ newComps) ++ ext) newOps d = some d := by
  cases s with
  | printEmpty =>
    exact fun ops comps => ⟨[.PrintEmpty], [], by simp [compileStmt],
      fun ext d => by simp [execDepth, stackArity]⟩
  | printlnEmpty =>
    exact fun ops comps => ⟨[.PrintLnEmpty], [], by simp [compileStmt],
      fun ext d => by simp [execDepth, stackArity]⟩
  | localDecl e =>
    intro ops comps
    obtain ⟨Δ, Δc, heq, hexec⟩ := compileExpr_spec e ops comps
    refine ⟨Δ ++ [.DeclareLocal], Δc, by simp [compileStmt, heq], fun ext d => ?_⟩
    rw [execDepth_append, hexec ext d, Option.some_bind]
    simp [execDepth, stackArity]
  | assignMember i e =>
    intro ops comps
    obtain ⟨Δ, Δc, heq, hexec⟩ := compileExpr_spec e ops comps
    refine ⟨Δ ++ [.AssignMember i], Δc, by simp [compileStmt, heq], fun ext d => ?_⟩
    rw [execDepth_append, hexec ext d, Option.some_bind]
    simp [execDepth, stackArity]
  | assignLocal i e =>
    intro ops comps
    obtain ⟨Δ, Δc, heq, hexec⟩ := compileExpr_spec e ops comps
    refine ⟨Δ ++ [.AssignLocal i], Δc, by simp [compileStmt, heq], fun ext d => ?_⟩
    rw [execDepth_append, hexec ext d, Option.some_bind]
    simp [execDepth, stackArity]
  | printExpr e =>
    intro ops comps
    obtain ⟨Δ, Δc, heq, hexec⟩ := compileExpr_spec e ops comps
    refine ⟨Δ ++ [.Print], Δc, by simp [compileStmt, heq], fun ext d => ?_⟩
    rw [execDepth_append, hexec ext d, Option.some_bind]
    simp [execDepth, stackArity]
  | printlnExpr e =>
    intro ops comps
    obtain ⟨Δ, Δc, heq, hexec⟩ := compileExpr_spec e ops comps
    refine ⟨Δ ++ [.PrintLn], Δc, by simp [compileStmt, heq], fun ext d => ?_⟩
    rw [execDepth_append, hexec ext d, Option.some_bind]
    simp [execDepth, stackArity]
  | outputStmt e =>
    intro ops comps
    obtain ⟨Δ, Δc, heq, hexec⟩ := compileExpr_spec e ops comps
    refine ⟨Δ ++ [.Output], Δc, by simp [compileStmt, heq], fun ext d => ?_⟩
    rw [execDepth_append, hexec ext d, Option.some_bind]
    simp [execDepth, stackArity]

/-- The statement fold of `compileFunc` preserves every stack depth. -/
theorem compileFunc_go_spec (stmts : List Stmt) : ∀ ops comps, ∃ newOps newComps,
    List.foldl (fun acc s => compileStmt s acc) (ops, comps) stmts
      = (ops ++ newOps, comps ++ newComps) ∧
    ∀ ext d, execDepth ((comps ++ newComps) ++ ext) newOps d = some d := by
  induction stmts with
  | nil => exact fun ops comps => ⟨[], [], by simp, fun ext d => by simp [execDepth]⟩
  | cons s ss ih =>
    intro ops comps
    obtain ⟨Δ, Δc, heq, hexec⟩ := compileStmt_spec s ops comps
    obtain ⟨Δs, Δcs, heqs, hexecs⟩ := ih (ops ++ Δ) (comps ++ Δc)
    refine ⟨Δ ++ Δs, Δc ++ Δcs, by simp [heq, heqs], fun ext d => ?_⟩
    have hassoc : (comps ++ (Δc ++ Δcs)) ++ ext = (comps ++ Δc) ++ (Δcs ++ ext) := by simp
    rw [hassoc, execDepth_append, hexec (Δcs ++ ext) d, Option.some_bind]
    have hassoc2 : (comps ++ Δc) ++ (Δcs ++ ext) = ((comps ++ Δc) ++ Δcs) ++ ext := by simp
    rw [hassoc2, hexecs ext d]


/-- **C5.**  Stack discipline: (1) for every function body the compiler
accepts, executing the emitted bytecode from any operand-stack depth—in
particular from the empty stack it starts with—returns to exactly that
depth, never popping past it (the compiler emits, for every statement, an
instruction sequence that pops exactly as many values as it pushes); and
(2) `run_ops` starts every invocation from the empty operand stack. -/
theorem claim5_stack_balance :
    (∀ (stmts : List Stmt) (d : ℕ),
        execDepth (compileFunc stmts).2 (compileFunc stmts).1 d = some d) ∧
    (∀ (ops : List Op) (args : List Value) (si : StreamInfo) (s : RunState),
        runOps ops args si s
          = runOpsFrom args si ops { s with locals := [], stack := [] }) := by
  constructor
  · intro stmts d
    obtain ⟨Δ, Δc, heq, hexec⟩ := compileFunc_go_spec stmts [] []
    have h1 : compileFunc stmts = (Δ, Δc) := by simpa [compileFunc] using heq
    rw [h1]
    simpa using hexec [] d
  · exact fun _ _ _ _ => rfl

/-! ## Claims -/

/-- **C1, counterexample.**  The claim says that when either numeric operand
is `Float` the result is `Float`, both statically and at run time, and that
`Int + Float` yields the Float sum.  On the code: the compiler's `term`
gives `Int + Float` the static type of the *left* operand (`Int`), and the
interpreter's `Add` produces `Value::int(lhs + rhs as i64)` — evaluating
`1 + 0.5` yields `Int 1`, not the Float sum `1.5`. -/
theorem claim1_counterexample :
    termStaticType VariableType.Int VariableType.Float = some VariableType.Int ∧
    some VariableType.Int ≠ some VariableType.Float ∧
    valueAdd [] (Value.int 1) (Value.float (1/2)) = some ([], Value.int 1) ∧
    (Value.int 1).value_type = VariableType.Int ∧
    (Value.int 1).value_type ≠ VariableType.Float ∧
    Value.int 1 ≠ Value.float (3/2) := by
  refine ⟨by decide, by decide, ?_, by decide, by decide, by decide⟩
  simp only [valueAdd, ratTrunc, Option.some.injEq, Prod.mk.injEq, Value.int.injEq]
  norm_num
  decide

/-- **C1, amended.**  For numeric operands, both the static type `term`
assigns and the tag the interpreter produces are those of the *left*
operand: `Float + Float` and `Float + Int` give the `Float` sum (the `Int`
operand cast to float), `Int + Int` the `Int` sum, and `Int + Float`
truncates the `Float` toward zero to an `i64` and yields
`Int (lhs + trunc rhs)`. -/
theorem claim1_amended :
    (∀ (a b : ℤ) (st : Store),
        valueAdd st (.int a) (.int b) = some (st, .int (a + b))) ∧
    (∀ (q r : ℚ) (st : Store),
        valueAdd st (.float q) (.float r) = some (st, .float (q + r))) ∧
    (∀ (q : ℚ) (a : ℤ) (st : Store),
        valueAdd st (.float q) (.int a) = some (st, .float (q + (a : ℚ)))) ∧
    (∀ (a : ℤ) (q : ℚ) (st : Store),
        valueAdd st (.int a) (.float q) = some (st, .int (a + ratTrunc q))) ∧
    termStaticType VariableType.Int VariableType.Int = some VariableType.Int ∧
    termStaticType VariableType.Int VariableType.Float = some VariableType.Int ∧
    termStaticType VariableType.Float VariableType.Int = some VariableType.Float ∧
    termStaticType VariableType.Float VariableType.Float = some VariableType.Float :=
  ⟨fun _ _ _ => rfl, fun _ _ _ => rfl, fun _ _ _ => rfl, fun _ _ _ => rfl,
   rfl, rfl, rfl, rfl⟩

/-- **C2, counterexample.**  The claim says an expression with a numeric
left operand and an `Audio` right operand is accepted.  On the code,
`can_sum_with`/`can_factor_with` for a numeric left-hand side admit only
`Float` and `Int` right-hand sides, so `Int ⊕ Audio` and `Float ⊕ Audio`
are rejected by `term`/`factor`. -/
theorem claim2_counterexample :
    VariableType.Int.can_sum_with VariableType.Audio = false ∧
    VariableType.Float.can_sum_with VariableType.Audio = false ∧
    VariableType.Int.can_factor_with VariableType.Audio = false ∧
    VariableType.Float.can_factor_with VariableType.Audio = false ∧
    termStaticType VariableType.Int VariableType.Audio = none ∧
    termStaticType VariableType.Float VariableType.Audio = none ∧
    factorStaticType VariableType.Int VariableType.Audio = none ∧
    factorStaticType VariableType.Float VariableType.Audio = none := by decide

/-- **C2, amended.**  Scalar broadcast is one-sided: an `Audio` *left*
operand with a numeric right operand is accepted, with static type `Audio`
(= the left operand's type); a numeric left operand with an `Audio` right
operand is rejected. -/
theorem claim2_amended :
    VariableType.Audio.can_sum_with VariableType.Int = true ∧
    VariableType.Audio.can_sum_with VariableType.Float = true ∧
    VariableType.Audio.can_factor_with VariableType.Int = true ∧
    VariableType.Audio.can_factor_with VariableType.Float = true ∧
    termStaticType VariableType.Audio VariableType.Int = some VariableType.Audio ∧
    termStaticType VariableType.Audio VariableType.Float = some VariableType.Audio ∧
    factorStaticType VariableType.Audio VariableType.Int = some VariableType.Audio ∧
    factorStaticType VariableType.Audio VariableType.Float = some VariableType.Audio ∧
    VariableType.Int.can_sum_with VariableType.Audio = false ∧
    VariableType.Float.can_sum_with VariableType.Audio = false ∧
    VariableType.Int.can_factor_with VariableType.Audio = false ∧
    VariableType.Float.can_factor_with VariableType.Audio = false := by decide

/-- **C3.**  The type checker admits `Audio / Float` and `Audio / Int`
(`can_factor_with` on an `Audio` left-hand side accepts every non-`String`
type), but the interpreter's `Div` implementation makes its whole
`ValueType::Audio` arm `unreachable!()`: executing `Divide` on *any*
compiler-accepted expression with an `Audio` left operand panics instead
of producing an `Audio` result. -/
theorem claim3_divide_audio_unreachable :
    VariableType.Audio.can_factor_with VariableType.Float = true ∧
    VariableType.Audio.can_factor_with VariableType.Int = true ∧
    VariableType.Audio.can_factor_with VariableType.Audio = true ∧
    (∀ (st : Store) (ref : ℕ) (rhs : Value), valueDiv st (.audio ref) rhs = none) :=
  ⟨rfl, rfl, rfl, fun _ _ _ => rfl⟩

/-- **C4.**  Arithmetic on an `Audio` operand clones the buffer and mutates
only the clone: a successful `+`, `-` or `×` never changes any existing
store slot, so every `Value` aliasing a pre-existing buffer still reads the
same samples afterwards. -/
theorem claim4_audio_arithmetic_preserves_aliased_buffers
    (st st' : Store) (lhs rhs w : Value)
    (h : valueAdd st lhs rhs = some (st', w) ∨
         valueSub st lhs rhs = some (st', w) ∨
         valueMul st lhs rhs = some (st', w)) :
    ∀ i, i < st.length → st'.get? i = st.get? i := by
  have hext : ∃ tail, st' = st ++ tail := by
    rcases h with h | h | h
    · exact valueAdd_extends st lhs rhs st' w h
    · exact valueSub_extends st lhs rhs st' w h
    · exact valueMul_extends st lhs rhs st' w h
  obtain ⟨tail, rfl⟩ := hext
  intro i hi
  exact List.get?_append hi

/-- **C4, witness**: adding the scalar `1` to an audio value aliasing slot
0 leaves slot 0's buffer unchanged (the mutated clone lands in a new
slot). -/
theorem claim4_witness :
    ([AudioBuffer.new 1 1, (AudioBuffer.new 1 1).apply_add 1] : Store).get? 0
      = ([AudioBuffer.new 1 1] : Store).get? 0 :=
  claim4_audio_arithmetic_preserves_aliased_buffers
    [AudioBuffer.new 1 1] [AudioBuffer.new 1 1, (AudioBuffer.new 1 1).apply_add 1]
    (Value.audio 0) (Value.float 1) (Value.audio 1)
    (Or.inl rfl) 0 (by decide)

/-- A block position at which no score events are scheduled just advances
the sample counter. -/

theorem fireLoop_no_events (si : StreamInfo) (m : ℕ) :
    ∀ (vm : VMState) (buf : AudioBuffer) (inits : ℕ),
    (∀ j, j < m → vm.sorted_score_events.lookup (vm.sample_counter + j) = none) →
    fireLoop si m vm buf inits
      = some ({ vm with sample_counter := vm.sample_counter + m }, buf, inits) := by
  induction m with
  | zero => intro vm buf inits h; simp [fireLoop]
  | succ k ih =>
    intro vm buf inits h
    have h0 := h 0 (Nat.succ_pos k)
    rw [Nat.add_zero] at h0
    simp only [fireLoop, h0, bind, Option.bind]
    rw [ih { vm with sample_counter := vm.sample_counter + 1 } buf inits ?_]
    · have harith : vm.sample_counter + 1 + k = vm.sample_counter + (k + 1) := by omega
      rw [harith]
    · intro j hj
      have := h (1 + j) (by omega)
      simpa [Nat.add_assoc] using this


/-- The instrument of the C6 scenario: empty `init`, and a `perf` body
compiled from `output(Noise(1.0));` — load the constant `1.0`, call
component slot 0 (a `Noise` whose RNG stream constantly draws `-1`, a legal
`gen_range(-1.0..1.0)` value), and `output` the result. -/
def instC6 : Instrument :=
  { numVars := 0
    initOps := []
    initComps := []
    perfOps := [.LoadConstant (.float 1), .CallComponent 0, .Output]
    perfComps := [.noise (fun _ => -1) 0] }

/-- A score event on `instC6` with start sample 0 and duration `0.0`. -/
def evC6 : ScoreEvent :=
  { instrument_index := 0
    duration := 0
    init_args := []
    perf_args := [] }

/-- The finalised VM of the C6 scenario: the single zero-duration event,
scheduled at sample 0, sample rate 10. -/
def vmC6 : VMState :=
  { instruments := [instC6]
    sorted_score_events := [(0, [evC6])]
    active_score_events := []
    sample_counter := 0
    sample_rate := 10
    store := [] }

/-- **C6, counterexample.**  The claim says a zero-duration event gets zero
`perf` calls and contributes no samples.  Running one block
(`buffer_size = 2`, one channel) of the scenario above: `init` runs once,
`run_perf` is called **once** (the `while` loop of `get_next_buffer` gives
every just-activated instance one `perf` call, and only then retires it
because `sample_counter = 2 ≥ 0 = duration_samples`), and that call's
`output` fills the block buffer with `-1`s — samples are contributed. -/
theorem claim6_counterexample :
    (getNextBuffer vmC6 1 2).map
        (fun r => (r.initCalls, r.perfCalls, r.buffer, r.vm.active_score_events.length))
      = some (1, 1, ⟨1, 2, [[-1, -1]]⟩, 0) ∧
    (1 : ℕ) ≠ 0 ∧
    (⟨1, 2, [[-1, -1]]⟩ : AudioBuffer) ≠ AudioBuffer.new 1 2 := by
  refine ⟨?_, by decide, ?_⟩
  · simp [getNextBuffer, fireLoop, fireEvents, perfPass, runInit, runPerf, runOps,
      runOpsFrom, execOp, Instrument.create_event_instance, Component.process,
      Component.arg_count, noiseProcess, AudioBuffer.new, AudioBuffer.add_from,
      AudioBuffer.combineRows, AudioBuffer.rowAdd, Value.get_audio, Value.get_float,
      Value.default, valueAdd, List.lookup, ratTrunc, vmC6, instC6, evC6,
      List.range_succ]
  · simp [AudioBuffer.new, AudioBuffer.mk.injEq]

/-- **C6, amended.**  For a zero-duration event scheduled at sample 0 of
the current block (and no other events), `get_next_buffer` runs the
event's `init` exactly once, calls its `perf` exactly **once** (not zero
times — the full perf body executes, so its `output` statements do
contribute samples), and retires the instance at the end of that block. -/
theorem claim6_amended (inst : Instrument) (ev : ScoreEvent) (vm : VMState)
    (channels n : ℕ)
    (i₁ : EventInstance) (st₁ : Store) (b₁ : AudioBuffer)
    (i₂ : EventInstance) (st₂ : Store) (b₂ : AudioBuffer) (done₂ : Bool)
    (hsse : vm.sorted_score_events = [(0, [ev])])
    (hsc : vm.sample_counter = 0)
    (hact : vm.active_score_events = [])
    (hinst : vm.instruments.get? ev.instrument_index = some inst)
    (hdur : ev.duration = 0)
    (hinit : runInit (inst.create_event_instance 0 ev.init_args ev.perf_args)
        ⟨vm.sample_rate, n + 1, channels⟩ vm.store (AudioBuffer.new channels (n + 1))
        = some (i₁, st₁, b₁))
    (hperf : runPerf i₁ ⟨vm.sample_rate, n + 1, channels⟩ st₁ b₁
        = some (i₂, st₂, b₂, done₂)) :
    (getNextBuffer vm channels (n + 1)).map
        (fun r => (r.initCalls, r.perfCalls, r.vm.active_score_events.length))
      = some (1, 1, 0) := by
  -- duration_samples of the created instance is 0
  have hdur0 : (ratTrunc (ev.duration * (vm.sample_rate : ℚ))).toNat = 0 := by
    rw [hdur]; simp [ratTrunc]
  -- the init run preserves duration_samples, so i₁.durationSamples = 0
  have hi₁dur : i₁.durationSamples = 0 := by
    unfold runInit at hinit
    cases hrun : runOps (inst.create_event_instance 0 ev.init_args ev.perf_args).initOps
        (inst.create_event_instance 0 ev.init_args ev.perf_args).initArgs
        ⟨vm.sample_rate, n + 1, channels⟩
        { store := vm.store
          vars := (inst.create_event_instance 0 ev.init_args ev.perf_args).vars
          components := (inst.create_event_instance 0 ev.init_args ev.perf_args).initComps
          buffer_to_fill := AudioBuffer.new channels (n + 1)
          locals := []
          stack := [] } with
    | none => rw [hrun] at hinit; simp at hinit
    | some s =>
      rw [hrun] at hinit
      simp only [bind, Option.bind, Option.some.injEq, Prod.mk.injEq] at hinit
      have : i₁ = { inst.create_event_instance 0 ev.init_args ev.perf_args with
          vars := s.vars, initComps := s.components } := hinit.1.symm
      rw [this]
      rfl
  -- the perf run retires the instance: done₂ = true
  have hdone : done₂ = true := by
    unfold runPerf at hperf
    cases hrun : runOps i₁.perfOps i₁.perfArgs ⟨vm.sample_rate, n + 1, channels⟩
        { store := st₁, vars := i₁.vars, components := i₁.perfComps,
          buffer_to_fill := b₁, locals := [], stack := [] } with
    | none => rw [hrun] at hperf; simp at hperf
    | some s =>
      rw [hrun] at hperf
      simp only [bind, Option.bind, Option.some.injEq, Prod.mk.injEq] at hperf
      have := hperf.2.2.2
      rw [← this, hi₁dur]
      simp
  have hstage1 : fireEvents vm.instruments vm.sample_rate
      ⟨vm.sample_rate, n + 1, channels⟩ [ev] vm.store
      (AudioBuffer.new channels (n + 1)) [] 0
      = some (st₁, b₁, [i₁], 1) := by
    simp only [fireEvents, hinst, bind, Option.bind, hdur0, hinit, List.nil_append]
  have hstage2 : fireLoop ⟨vm.sample_rate, n + 1, channels⟩ (n + 1) vm
      (AudioBuffer.new channels (n + 1)) 0
      = some ({ vm with
                  store := st₁
                  active_score_events := [i₁]
                  sample_counter := vm.sample_counter + 1 + n }, b₁, 1) := by
    simp only [fireLoop, hsc, hsse, hact, List.lookup, beq_self_eq_true, hstage1,
      bind, Option.bind]
    rw [fireLoop_no_events ⟨vm.sample_rate, n + 1, channels⟩ n _ b₁ 1 ?_]
    · intro j hj
      simp only [List.lookup]
      have hbeq : (0 + 1 + j == 0) = false := by
        simp only [beq_eq_false_iff_ne, ne_eq]
        omega
      rw [hbeq]
  have hstage3 : perfPass ⟨vm.sample_rate, n + 1, channels⟩ [i₁] st₁ b₁
      = some ([], st₂, b₂, 1) := by
    simp only [perfPass, hperf, hdone, bind, Option.bind, if_true]
  simp only [getNextBuffer, hstage2, hstage3, bind, Option.bind, Option.map_some]
  rfl

/-- The created event instance of the C6 scenario. -/
def iC6 : EventInstance := instC6.create_event_instance 0 [] []

/-- The result of the scenario's single `run_perf` call. -/
def perfResC6 : EventInstance × Store × AudioBuffer × Bool :=
  (runPerf iC6 ⟨10, 2, 1⟩ [] (AudioBuffer.new 1 2)).getD
    (iC6, [], AudioBuffer.new 1 2, false)

/-- **C6, witness**: the amended claim instantiated on the concrete
scenario. -/
theorem claim6_witness :
    (getNextBuffer vmC6 1 2).map
        (fun r => (r.initCalls, r.perfCalls, r.vm.active_score_events.length))
      = some (1, 1, 0) :=
  claim6_amended instC6 evC6 vmC6 1 1
    iC6 [] (AudioBuffer.new 1 2)
    perfResC6.1 perfResC6.2.1 perfResC6.2.2.1 perfResC6.2.2.2
    rfl rfl rfl rfl rfl rfl rfl

/-- The RNG stream of the C7 counterexample: first draw `-1`, then `0`
(both legal `gen_range(-1.0..1.0)` results). -/
def noiseCexRng : ℕ → ℚ := fun n => if n = 0 then -1 else 0

/-- **C7, counterexample.**  The claim says that within each frame all
channels hold an identical sample value.  On the code, the random draw is
inside the *channel* loop (`noise.rs:34-39`), so each `(frame, channel)`
pair gets its own draw: with two channels, one frame, amplitude 1, and an
RNG stream whose first two draws (both within `[-1, 1)`) are `-1` and `0`,
channel 0 of frame 0 holds `-1` while channel 1 holds `0`. -/
theorem claim7_counterexample :
    (∀ n : ℕ, -1 ≤ noiseCexRng n ∧ noiseCexRng n < 1) ∧
    (0 : ℚ) < (Value.float 1).get_float ∧
    (noiseProcess noiseCexRng 0 ⟨48000, 1, 2⟩ [Value.float 1]).get_sample 0 0 = -1 ∧
    (noiseProcess noiseCexRng 0 ⟨48000, 1, 2⟩ [Value.float 1]).get_sample 1 0 = 0 ∧
    (-1 : ℚ) ≠ 0 := by
  refine ⟨fun n => ?_, by norm_num [Value.get_float], ?_, ?_, by norm_num⟩
  · unfold noiseCexRng
    split <;> norm_num
  · simp [noiseProcess, AudioBuffer.get_sample, noiseCexRng, Value.get_float,
      List.range_succ]
  · simp [noiseProcess, AudioBuffer.get_sample, noiseCexRng, Value.get_float,
      List.range_succ]

/-- **C7, amended.**  For amplitude `amp > 0` and any RNG stream of draws
in `[-1, 1)`, every sample of the returned buffer lies in `[-amp, +amp)`;
but the `(frame, channel)` entry holds its *own* draw (number
`frame·channels + channel` of the call), so channels within a frame are
independently random, not identical. -/
theorem claim7_amended (amp : ℚ) (rng : ℕ → ℚ) (idx : ℕ) (si : StreamInfo)
    (hamp : 0 < amp) (hr : ∀ n, -1 ≤ rng n ∧ rng n < 1) :
    ∀ c s, c < si.channels → s < si.buffer_size →
      (-amp ≤ (noiseProcess rng idx si [Value.float amp]).get_sample c s ∧
       (noiseProcess rng idx si [Value.float amp]).get_sample c s < amp ∧
       (noiseProcess rng idx si [Value.float amp]).get_sample c s
         = rng (idx + (s * si.channels + c)) * amp) := by
  intro c s hc hs
  have hval : (noiseProcess rng idx si [Value.float amp]).get_sample c s
      = rng (idx + (s * si.channels + c)) * amp := by
    simp [noiseProcess, AudioBuffer.get_sample, Value.get_float, List.getD,
      List.get?_map, List.get?_range, hc, hs]
  refine ⟨?_, ?_, hval⟩
  · rw [hval]
    have := mul_le_mul_of_nonneg_right (hr (idx + (s * si.channels + c))).1 hamp.le
    simpa using this
  · rw [hval]
    have := mul_lt_mul_of_pos_right (hr (idx + (s * si.channels + c))).2 hamp
    simpa using this

/-- **C7, witness**: a mono one-frame buffer at amplitude 1 with the
all-zero draw stream: the sample is in `[-1, 1)` and equals its draw. -/
theorem claim7_witness :
    -(1 : ℚ) ≤ (noiseProcess (fun _ => 0) 0 ⟨48000, 1, 1⟩ [Value.float 1]).get_sample 0 0 ∧
    (noiseProcess (fun _ => 0) 0 ⟨48000, 1, 1⟩ [Value.float 1]).get_sample 0 0 < 1 ∧
    (noiseProcess (fun _ => 0) 0 ⟨48000, 1, 1⟩ [Value.float 1]).get_sample 0 0
      = (fun _ : ℕ => (0 : ℚ)) (0 + (0 * 1 + 0)) * 1 :=
  claim7_amended 1 (fun _ => 0) 0 ⟨48000, 1, 1⟩ (by norm_num)
    (fun n => by norm_num) 0 0 (by decide) (by decide)

/-- **C8.**  In `scanner.rs` as it stands, `"output"` is *not* in the
`KEYWORDS` map and `+ - * /` are *not* in the `SYMBOLS` map (and the
`TokenType` enum has no variants for them), so lexing `output` yields a
plain `Identifier` token and lexing each of `+ - * /` yields an
`ErrorToken` — contradicting both the claim and the `compiler.rs` in the
same tree, which matches on `TokenType::Output/Plus/Minus/Star/Slash`. -/
theorem claim8_scanner_behavior :
    (Scanner.scan_token (Scanner.new "output".toList)).map (fun p => p.1.token_type)
        = some TokenType.Identifier ∧
    KEYWORDS "output" = none ∧
    (Scanner.scan_token (Scanner.new ['+'])).map (fun p => p.1.token_type)
        = some TokenType.ErrorToken ∧
    (Scanner.scan_token (Scanner.new ['-'])).map (fun p => p.1.token_type)
        = some TokenType.ErrorToken ∧
    (Scanner.scan_token (Scanner.new ['*'])).map (fun p => p.1.token_type)
        = some TokenType.ErrorToken ∧
    (Scanner.scan_token (Scanner.new ['/'])).map (fun p => p.1.token_type)
        = some TokenType.ErrorToken ∧
    SYMBOLS "+" = none ∧ SYMBOLS "-" = none ∧
    SYMBOLS "*" = none ∧ SYMBOLS "/" = none := by decide

/-- Parsing a run of clean productions leaves the compiler in its initial
error state, so the driver loop just continues past them. -/
theorem compileLoop_clean_blocks (pre : List BlockItem)
    (h : ∀ x ∈ pre, x.clean) (l : List BlockItem) :
    compileLoop (pre ++ l) ⟨false, 0⟩ = compileLoop l ⟨false, 0⟩ := by
  induction pre with
  | nil => rfl
  | cons x xs ih =>
    have hx := h x (List.mem_cons_self _ _)
    have hxs : ∀ y ∈ xs, y.clean := fun y hy => h y (List.mem_cons_of_mem _ hy)
    cases x with
    | badToken => exact absurd hx (by simp [BlockItem.clean])
    | instrumentsBlock k =>
      have hk : k = 0 := hx
      subst hk
      simpa [compileLoop, CompState.report] using ih hxs
    | scoreBlock k =>
      have hk : k = 0 := hx
      subst hk
      simpa [compileLoop, CompState.report] using ih hxs

/-- **C9, counterexample.**  The claim says a file with two independent
errors in two separate productions yields two diagnostics.  On the code,
every driver loop breaks as soon as `had_error` is set
(`compiler.rs:103-105`, and likewise inside the block loops), so the second
erroneous production is never parsed: exactly one diagnostic is printed —
and execution does not start. -/
theorem claim9_counterexample :
    (compile [BlockItem.instrumentsBlock 1, BlockItem.instrumentsBlock 1]).diagnostics = 1 ∧
    (compile [BlockItem.instrumentsBlock 1, BlockItem.instrumentsBlock 1]).diagnostics ≠ 2 ∧
    (compile [BlockItem.instrumentsBlock 1, BlockItem.instrumentsBlock 1]).had_error = true ∧
    (compileAndRun [BlockItem.instrumentsBlock 1, BlockItem.instrumentsBlock 1]).2 = false := by
  decide

/-- **C9, amended.**  The compiler reports the diagnostics of the *first*
erroneous production and then stops: for any run of clean productions
followed by a production reporting `k > 0` diagnostics, compilation ends
with exactly those `k` diagnostics regardless of what follows (a later
independent error contributes none), `had_error` is set, and no part of
the program is executed. -/
theorem claim9_amended (pre rest : List BlockItem) (k : ℕ)
    (hpre : ∀ x ∈ pre, x.clean) (hk : 0 < k) :
    (compile (pre ++ BlockItem.instrumentsBlock k :: rest)).diagnostics = k ∧
    (compile (pre ++ BlockItem.instrumentsBlock k :: rest)).had_error = true ∧
    (compileAndRun (pre ++ BlockItem.instrumentsBlock k :: rest)).2 = false := by
  have hmain : compile (pre ++ BlockItem.instrumentsBlock k :: rest)
      = { had_error := true, diagnostics := k } := by
    unfold compile
    rw [compileLoop_clean_blocks pre hpre]
    simp [compileLoop, CompState.report, hk]
  refine ⟨by rw [hmain], by rw [hmain], ?_⟩
  simp [compileAndRun, hmain]

/-- **C9, witness**: one clean score block, then an instruments block with
one error, then a further erroneous score block — one diagnostic in total
and no execution. -/
theorem claim9_witness :
    (compile ([BlockItem.scoreBlock 0] ++ BlockItem.instrumentsBlock 1
        :: [BlockItem.scoreBlock 1])).diagnostics = 1 ∧
    (compile ([BlockItem.scoreBlock 0] ++ BlockItem.instrumentsBlock 1
        :: [BlockItem.scoreBlock 1])).had_error = true ∧
    (compileAndRun ([BlockItem.scoreBlock 0] ++ BlockItem.instrumentsBlock 1
        :: [BlockItem.scoreBlock 1])).2 = false :=
  claim9_amended [BlockItem.scoreBlock 0] [BlockItem.scoreBlock 1] 1
    (fun x hx => by rcases List.mem_singleton.mp hx with rfl; exact rfl)
    (by decide)

/-- **C10.**  Every `run_ops` invocation executes with a freshly created,
empty locals array and operand stack: (1) `run_ops` is the op loop started
from `locals = []`, `stack = []` whatever the instance's state; (2) hence a
function whose first op reads a local fails even if a previous invocation
declared locals — locals never persist between calls; (3) member variables
do persist: a constant stored to member `j` is recorded in the instance's
`vars`, which carries across calls. -/
theorem claim10_fresh_locals_and_stack :
    (∀ (ops : List Op) (args : List Value) (si : StreamInfo) (s : RunState),
        runOps ops args si s
          = runOpsFrom args si ops { s with locals := [], stack := [] }) ∧
    (∀ (i : ℕ) (rest : List Op) (args : List Value) (si : StreamInfo) (s : RunState),
        runOps (Op.LoadLocal i :: rest) args si s = none) ∧
    (∀ (v : Value) (j : ℕ) (args : List Value) (si : StreamInfo) (s : RunState),
        j < s.vars.length →
        runOps [Op.LoadConstant v, Op.AssignMember j] args si s
          = some { s with locals := [], stack := [], vars := s.vars.set j v }) := by
  refine ⟨fun _ _ _ _ => rfl, fun i rest args si s => ?_, fun v j args si s h => ?_⟩
  · simp [runOps, runOpsFrom, execOp]
  · simp [runOps, runOpsFrom, execOp, h]

/-- **C10, witness**: with one member variable, reading local 0 first thing
fails, and storing the constant 7 to member 0 persists it in `vars`. -/
theorem claim10_witness :
    runOps [Op.LoadLocal 0] [] ⟨1, 1, 1⟩
        ⟨[], [Value.int 0], [], AudioBuffer.new 1 1, [], []⟩ = none ∧
    runOps [Op.LoadConstant (Value.int 7), Op.AssignMember 0] [] ⟨1, 1, 1⟩
        ⟨[], [Value.int 0], [], AudioBuffer.new 1 1, [], []⟩
      = some ⟨[], [Value.int 7], [], AudioBuffer.new 1 1, [], []⟩ := by
  constructor
  · exact claim10_fresh_locals_and_stack.2.1 0 [] [] ⟨1, 1, 1⟩
      ⟨[], [Value.int 0], [], AudioBuffer.new 1 1, [], []⟩
  · have := claim10_fresh_locals_and_stack.2.2 (Value.int 7) 0 [] ⟨1, 1, 1⟩
      ⟨[], [Value.int 0], [], AudioBuffer.new 1 1, [], []⟩ (by decide)
    simpa using this

end Ral
